import Mathlib

/-!
Shallow embedding of the certificate-lifecycle core of traefik-cert-manager.

Sources embedded:
  * the Certificate entity and its health methods (acme client file:
    IsExpired, NeedsRenewal, DaysUntilExpiry);
  * CertificateManager (internal/certmanager/manager.go): the in-memory
    registry, RequestCertificate, RenewCertificate, GetCertificate,
    CheckCertificateHealth, ProcessAllDomains, Cleanup;
  * the scheduler functions performRenewalCheck / performRenewalWithContext
    (internal/certmanager/scheduler.go) with its SchedulerStats counters;
  * RenewalTask / RenewalQueue.GetNextTask (renewal service file).

Modelling conventions:
  * instants and durations are Int nanoseconds, matching Go time.Time /
    time.Duration granularity; `time.Now()` becomes an explicit `now`
    argument; `a.After(b)` becomes `b < a`;
  * `AddDate(0, 0, -renewalDays)` is modelled as subtracting
    renewalDays * nsPerDay (linear UTC time, no calendar irregularities);
  * `int(duration.Hours() / 24)` is modelled as exact-real truncation
    toward zero, `Int.tdiv duration nsPerDay` (float64 rounding of
    Hours() is ignored; all inputs considered are exactly representable);
  * the ACME client interface is a record of functions (the Manager only
    sees the ACMEClientInterface capability); errors are structured
    types DomainError / BatchError instead of wrapped Go strings,
    keeping the domain and the underlying message;
  * the Go map registry is an association list with no duplicate keys:
    mapInsert replaces the first binding or appends;
  * context cancellation is a schedule `cancelled : Nat → Bool` giving
    the value of the i-th ctx.Done() poll (Go contexts are monotone, but
    none of the theorems need that);
  * goroutine interleavings and locking are out of scope: each operation
    is modelled as the state transformer its body performs under the
    manager lock.
-/

namespace CertManager

/-- Nanoseconds in one hour (Go `time.Hour`). -/
def nsPerHour : Int := 3600000000000

/-- Nanoseconds in one 24-hour day (Go `24 * time.Hour`). -/
def nsPerDay : Int := 86400000000000

/-- The Certificate entity. PEM byte blobs are abstracted as Nat tokens:
the manager core never inspects them, only threads them through. -/
structure Certificate where
  domain : String
  certPEM : Nat
  privateKeyPEM : Nat
  issuedAt : Int
  expiresAt : Int
deriving DecidableEq, Repr

/-- `func (c *Certificate) IsExpired() bool { return time.Now().After(c.ExpiresAt) }` -/
def Certificate.IsExpired (c : Certificate) (now : Int) : Bool :=
  decide (c.expiresAt < now)

/-- `NeedsRenewal`: `renewalTime := c.ExpiresAt.AddDate(0, 0, -renewalDays);
return time.Now().After(renewalTime)`. -/
def Certificate.NeedsRenewal (c : Certificate) (renewalDays : Int) (now : Int) : Bool :=
  decide (c.expiresAt - renewalDays * nsPerDay < now)

/-- `DaysUntilExpiry`: `duration := time.Until(c.ExpiresAt);
return int(duration.Hours() / 24)` — truncation toward zero. -/
def Certificate.DaysUntilExpiry (c : Certificate) (now : Int) : Int :=
  Int.tdiv (c.expiresAt - now) nsPerDay

/-- Structured stand-in for the per-domain error values the manager
produces (Go wraps causes into fmt.Errorf strings; we keep the domain
and the underlying message). -/
inductive DomainError where
  | notFound : String → String → DomainError
  | requestFailed : String → String → DomainError
  | renewFailed : String → String → DomainError
deriving DecidableEq, Repr

/-- Result of a batch operation: the observed ctx.Err() on cancellation,
or the aggregate of the collected per-domain errors. -/
inductive BatchError where
  | cancelled : BatchError
  | aggregate : List DomainError → BatchError
deriving DecidableEq, Repr

/-- Lookup in the registry map (Go `cm.certs[domain]`). -/
def mapLookup : List (String × Certificate) → String → Option Certificate
  | [], _ => none
  | (k, v) :: rest, d => if k = d then some v else mapLookup rest d

/-- Store into the registry map (Go `cm.certs[domain] = cert`):
replaces the binding if present, appends otherwise. -/
def mapInsert : List (String × Certificate) → String → Certificate → List (String × Certificate)
  | [], d, c => [(d, c)]
  | (k, v) :: rest, d, c =>
      if k = d then (d, c) :: rest else (k, v) :: mapInsert rest d c

/-- The ACMEClientInterface capability consumed by the manager. -/
structure ACMEClient where
  requestCertificate : String → Except String Certificate
  renewCertificate : Certificate → Except String Certificate
  loadCertificate : String → Except String Certificate

/-- CertificateManager: the registry plus the configuration values its
methods read (cfg.Certificates.RenewalDays, cfg.GetAllDomains()). -/
structure CertificateManager where
  certs : List (String × Certificate)
  renewalDays : Int
  domains : List String
deriving DecidableEq, Repr

/-- The adapter-call tail of RequestCertificate (after the health
short-circuit): invoke acmeClient.RequestCertificate, commit on success.
The Nat counts adapter invocations this call performed. -/
def CertificateManager.requestFromAcme (cm : CertificateManager) (acme : ACMEClient)
    (domain : String) : Except DomainError Unit × CertificateManager × Nat :=
  match acme.requestCertificate domain with
  | Except.error e => (Except.error (DomainError.requestFailed domain e), cm, 1)
  | Except.ok cert =>
      (Except.ok (), ⟨mapInsert cm.certs domain cert, cm.renewalDays, cm.domains⟩, 1)

/-- `func (cm *CertificateManager) RequestCertificate(domain string) error`. -/
def CertificateManager.RequestCertificate (cm : CertificateManager) (acme : ACMEClient)
    (now : Int) (domain : String) : Except DomainError Unit × CertificateManager × Nat :=
  match mapLookup cm.certs domain with
  | some cert =>
      if !cert.IsExpired now && !cert.NeedsRenewal cm.renewalDays now then
        (Except.ok (), cm, 0)
      else
        cm.requestFromAcme acme domain
  | none => cm.requestFromAcme acme domain

/-- The renewal tail of RenewCertificate: invoke acmeClient.RenewCertificate
on the certificate in hand, commit on success, leave state on failure. -/
def CertificateManager.renewWith (cm : CertificateManager) (acme : ACMEClient)
    (domain : String) (cert : Certificate) : Except DomainError Unit × CertificateManager :=
  match acme.renewCertificate cert with
  | Except.error e => (Except.error (DomainError.renewFailed domain e), cm)
  | Except.ok renewed =>
      (Except.ok (), ⟨mapInsert cm.certs domain renewed, cm.renewalDays, cm.domains⟩)

/-- `func (cm *CertificateManager) RenewCertificate(domain string) error`:
on a registry miss, lazily load from the store and commit the loaded
certificate to the registry before attempting renewal. -/
def CertificateManager.RenewCertificate (cm : CertificateManager) (acme : ACMEClient)
    (domain : String) : Except DomainError Unit × CertificateManager :=
  match mapLookup cm.certs domain with
  | some cert => cm.renewWith acme domain cert
  | none =>
      match acme.loadCertificate domain with
      | Except.error e => (Except.error (DomainError.notFound domain e), cm)
      | Except.ok loaded =>
          CertificateManager.renewWith
            ⟨mapInsert cm.certs domain loaded, cm.renewalDays, cm.domains⟩
            acme domain loaded

/-- `func (cm *CertificateManager) GetCertificate(domain string)`. -/
def CertificateManager.GetCertificate (cm : CertificateManager) (domain : String) :
    Except DomainError Certificate :=
  match mapLookup cm.certs domain with
  | some cert => Except.ok cert
  | none => Except.error (DomainError.notFound domain "")

/-- CertificateHealth as built by CheckCertificateHealth. -/
structure CertificateHealth where
  domain : String
  status : String
  issuedAt : Int
  expiresAt : Int
  isExpired : Bool
  needsRenewal : Bool
  daysUntilExpiry : Int
deriving DecidableEq, Repr

/-- The loop body of CheckCertificateHealth for one registry entry. -/
def healthOf (domain : String) (cert : Certificate) (renewalDays : Int) (now : Int) :
    CertificateHealth :=
  ⟨domain,
   if cert.IsExpired now then "expired"
   else if cert.NeedsRenewal renewalDays now then "needs_renewal"
   else "valid",
   cert.issuedAt, cert.expiresAt,
   cert.IsExpired now, cert.NeedsRenewal renewalDays now,
   cert.DaysUntilExpiry now⟩

/-- `func (cm *CertificateManager) CheckCertificateHealth() map[string]CertificateHealth`. -/
def CertificateManager.CheckCertificateHealth (cm : CertificateManager) (now : Int) :
    List (String × CertificateHealth) :=
  cm.certs.map (fun p => (p.1, healthOf p.1 p.2 cm.renewalDays now))

/-- The loop of ProcessAllDomains: before each domain, one ctx.Done()
poll (`cancelled 0` for the next poll; the schedule is shifted on
recursion); on cancellation return ctx.Err() at once, otherwise call
RequestCertificate and collect its error, never stopping. The third
component accumulates the domains for which RequestCertificate ran. -/
def processDomainsAux (acme : ACMEClient) (now : Int) :
    List String → (Nat → Bool) → CertificateManager → List DomainError → List String →
    Except BatchError Unit × CertificateManager × List String
  | [], _, cm, errs, att =>
      (if errs.isEmpty then Except.ok () else Except.error (BatchError.aggregate errs),
       cm, att)
  | d :: rest, cancelled, cm, errs, att =>
      if cancelled 0 then (Except.error BatchError.cancelled, cm, att)
      else
        match cm.RequestCertificate acme now d with
        | (Except.ok _, cm2, _) =>
            processDomainsAux acme now rest (fun n => cancelled (n + 1)) cm2 errs (att ++ [d])
        | (Except.error e, cm2, _) =>
            processDomainsAux acme now rest (fun n => cancelled (n + 1)) cm2
              (errs ++ [e]) (att ++ [d])

/-- `func (cm *CertificateManager) ProcessAllDomains(ctx context.Context) error`. -/
def CertificateManager.ProcessAllDomains (cm : CertificateManager) (acme : ACMEClient)
    (now : Int) (cancelled : Nat → Bool) :
    Except BatchError Unit × CertificateManager × List String :=
  processDomainsAux acme now cm.domains cancelled cm [] []

/-- Specification-level recursion: the state reached after requesting,
in order, a certificate for each listed domain. -/
def requestAll (acme : ACMEClient) (now : Int) :
    CertificateManager → List String → CertificateManager
  | cm, [] => cm
  | cm, d :: rest => requestAll acme now (cm.RequestCertificate acme now d).2.1 rest

/-- Specification-level recursion: the per-domain errors produced by
requesting, in order, a certificate for each listed domain. -/
def requestErrors (acme : ACMEClient) (now : Int) :
    CertificateManager → List String → List DomainError
  | _, [] => []
  | cm, d :: rest =>
      match cm.RequestCertificate acme now d with
      | (Except.ok _, cm2, _) => requestErrors acme now cm2 rest
      | (Except.error e, cm2, _) => e :: requestErrors acme now cm2 rest

/-- Whether Cleanup retains a registry entry: removed iff
`cert.IsExpired() && time.Since(cert.ExpiresAt) > 30*24*time.Hour`. -/
def cleanupKeeps (now : Int) (cert : Certificate) : Bool :=
  !(cert.IsExpired now && decide (30 * nsPerDay < now - cert.expiresAt))

/-- The manager registry together with the on-disk store artifacts
(domain-keyed certificate files). The body of Cleanup performs no file
operation, so the store component is untouched by it. -/
structure CertSystem where
  cm : CertificateManager
  store : List (String × Certificate)
deriving DecidableEq, Repr

/-- `func (cm *CertificateManager) Cleanup() error`: delete from the
registry every certificate expired for more than 30 days. -/
def CertSystem.Cleanup (s : CertSystem) (now : Int) : CertSystem :=
  ⟨⟨s.cm.certs.filter (fun p => cleanupKeeps now p.2), s.cm.renewalDays, s.cm.domains⟩,
   s.store⟩

/-! ## Scheduler (internal/certmanager/scheduler.go) -/

/-- The counters of SchedulerStats that performRenewalCheck mutates. -/
structure SchedulerStats where
  totalRuns : Nat
  successfulRuns : Nat
  failedRuns : Nat
  certificatesRenewed : Nat
deriving DecidableEq, Repr

/-- The renewal loop of performRenewalWithContext over the health
snapshot: one ctx.Done() poll per entry, renew the entries flagged
needsRenewal, collect errors, count successes. On a cancelled poll the
early return skips the `CertificatesRenewed += renewalCount` commit, so
the returned count is 0 there. -/
def renewHealthAux (acme : ACMEClient) :
    List (String × CertificateHealth) → (Nat → Bool) → CertificateManager →
    List DomainError → Nat → Except BatchError Unit × CertificateManager × Nat
  | [], _, cm, errs, cnt =>
      (if errs.isEmpty then Except.ok () else Except.error (BatchError.aggregate errs),
       cm, cnt)
  | (d, h) :: rest, cancelled, cm, errs, cnt =>
      if cancelled 0 then (Except.error BatchError.cancelled, cm, 0)
      else if h.needsRenewal then
        match cm.RenewCertificate acme d with
        | (Except.ok _, cm2) =>
            renewHealthAux acme rest (fun n => cancelled (n + 1)) cm2 errs (cnt + 1)
        | (Except.error e, cm2) =>
            renewHealthAux acme rest (fun n => cancelled (n + 1)) cm2 (errs ++ [e]) cnt
      else
        renewHealthAux acme rest (fun n => cancelled (n + 1)) cm errs cnt

/-- `func (s *Scheduler) performRenewalWithContext(ctx context.Context) error`:
initial ctx poll, health snapshot, renewal loop. The Nat is the
renewalCount committed to stats.CertificatesRenewed (0 when an early
cancelled return skipped the commit). -/
def performRenewalWithContext (cm : CertificateManager) (acme : ACMEClient)
    (now : Int) (cancelled : Nat → Bool) :
    Except BatchError Unit × CertificateManager × Nat :=
  if cancelled 0 then (Except.error BatchError.cancelled, cm, 0)
  else
    renewHealthAux acme (cm.CheckCertificateHealth now) (fun n => cancelled (n + 1)) cm [] 0

/-- `func (s *Scheduler) performRenewalCheck()`: bump TotalRuns, run the
batch, then bump FailedRuns on any non-nil error (cancellation included)
and SuccessfulRuns otherwise. -/
def performRenewalCheck (stats : SchedulerStats) (cm : CertificateManager)
    (acme : ACMEClient) (now : Int) (cancelled : Nat → Bool) :
    SchedulerStats × CertificateManager × Except BatchError Unit :=
  match performRenewalWithContext cm acme now cancelled with
  | (Except.ok u, cm2, cnt) =>
      (⟨stats.totalRuns + 1, stats.successfulRuns + 1, stats.failedRuns,
        stats.certificatesRenewed + cnt⟩, cm2, Except.ok u)
  | (Except.error e, cm2, cnt) =>
      (⟨stats.totalRuns + 1, stats.successfulRuns, stats.failedRuns + 1,
        stats.certificatesRenewed + cnt⟩, cm2, Except.error e)

/-! ## RenewalTask / RenewalQueue (renewal service file) -/

/-- A pending renewal task. -/
structure RenewalTask where
  domain : String
  certPath : String
  keyPath : String
  priority : Int
  scheduledAt : Int
deriving DecidableEq, Repr

/-- Whether a task is ready: `time.Now().After(task.ScheduledAt)`. -/
def taskReady (now : Int) (t : RenewalTask) : Bool :=
  decide (t.scheduledAt < now)

/-- The selection loop of GetNextTask (go 1.22 per-iteration loop
variables): scan with index, keep the first ready task of strictly
greatest priority seen so far. -/
def findBest (now : Int) :
    List RenewalTask → Nat → Option (RenewalTask × Nat) → Option (RenewalTask × Nat)
  | [], _, best => best
  | t :: rest, i, best =>
      let keep : Bool :=
        taskReady now t &&
          (match best with
           | none => true
           | some b => decide (b.1.priority < t.priority))
      findBest now rest (i + 1) (if keep then some (t, i) else best)

/-- `func (rq *RenewalQueue) GetNextTask() *RenewalTask`: returns the
selected task (if any) and the remaining queue
(`append(rq.tasks[:i], rq.tasks[i+1:]...)` is eraseIdx). -/
def GetNextTask (tasks : List RenewalTask) (now : Int) :
    Option RenewalTask × List RenewalTask :=
  match findBest now tasks 0 none with
  | none => (none, tasks)
  | some (t, i) => (some t, tasks.eraseIdx i)

end CertManager

namespace CertManager

/-- Decidable equality for Except results, used to evaluate the
operations at concrete inputs. -/
instance {ε α : Type} [DecidableEq ε] [DecidableEq α] : DecidableEq (Except ε α) :=
  fun x y =>
    match x, y with
    | Except.ok a, Except.ok b => decidable_of_iff (a = b) (by simp)
    | Except.ok _, Except.error _ => isFalse (by simp)
    | Except.error _, Except.ok _ => isFalse (by simp)
    | Except.error e, Except.error f => decidable_of_iff (e = f) (by simp)

/-! ## Registry map lemmas -/

theorem mapLookup_mapInsert_self (m : List (String × Certificate)) (d : String)
    (c : Certificate) : mapLookup (mapInsert m d c) d = some c := by
  induction m with
  | nil => simp [mapInsert, mapLookup]
  | cons p rest ih =>
    obtain ⟨k, v⟩ := p
    by_cases h : k = d <;> simp [mapInsert, mapLookup, h, ih]

/-! ## C1: strict renewal threshold -/

/-- C1. For every certificate and renewal threshold, NeedsRenewal is
false exactly at `expiresAt - renewalDays` days and true at every
strictly later instant (the comparison is a strict greater-than). -/
theorem needsRenewal_strict_boundary (cert : Certificate) (renewalDays : Int) :
    cert.NeedsRenewal renewalDays (cert.expiresAt - renewalDays * nsPerDay) = false ∧
    ∀ t : Int, cert.expiresAt - renewalDays * nsPerDay < t →
      cert.NeedsRenewal renewalDays t = true := by
  constructor
  · simp [Certificate.NeedsRenewal]
  · intro t ht
    simpa [Certificate.NeedsRenewal] using ht

/-- Witness for C1 at a concrete certificate, threshold 30 days:
the boundary instant itself and one nanosecond later. -/
theorem needsRenewal_strict_boundary_witness :
    (Certificate.NeedsRenewal ⟨"a.example", 1, 2, 0, 5184000000000000⟩ 30
        (5184000000000000 - 30 * nsPerDay) = false) ∧
    Certificate.NeedsRenewal ⟨"a.example", 1, 2, 0, 5184000000000000⟩ 30
        (5184000000000000 - 30 * nsPerDay + 1) = true := by
  refine ⟨(needsRenewal_strict_boundary ⟨"a.example", 1, 2, 0, 5184000000000000⟩ 30).1, ?_⟩
  exact (needsRenewal_strict_boundary ⟨"a.example", 1, 2, 0, 5184000000000000⟩ 30).2 _
    (by norm_num [nsPerDay])

/-! ## C2: failed renewal preserves the registry entry -/

/-- C2. If the registry holds a certificate for the domain and the
adapter RenewCertificate call fails, Manager.RenewCertificate returns the
wrapped error, the state is exactly the pre-call state, and
GetCertificate still returns the pre-call certificate. -/
theorem renewCertificate_failure_preserves_registry
    (cm : CertificateManager) (acme : ACMEClient) (D : String)
    (cert : Certificate) (e : String)
    (hlook : mapLookup cm.certs D = some cert)
    (hfail : acme.renewCertificate cert = Except.error e) :
    cm.RenewCertificate acme D = (Except.error (DomainError.renewFailed D e), cm) ∧
    (cm.RenewCertificate acme D).2.GetCertificate D = Except.ok cert := by
  have hrun : cm.RenewCertificate acme D =
      (Except.error (DomainError.renewFailed D e), cm) := by
    simp only [CertificateManager.RenewCertificate, hlook,
      CertificateManager.renewWith, hfail]
  refine ⟨hrun, ?_⟩
  rw [hrun]
  simp only [CertificateManager.GetCertificate, hlook]

def certAlpha : Certificate := ⟨"a.example", 1, 2, 0, 1000⟩

def acmeAllFail : ACMEClient :=
  ⟨fun _ => Except.error "net down", fun _ => Except.error "boom",
   fun _ => Except.error "missing"⟩

def cmOneEntry : CertificateManager := ⟨[("a.example", certAlpha)], 30, ["a.example"]⟩

/-- Witness for C2: concrete one-entry registry, failing adapter. -/
theorem renewCertificate_failure_preserves_registry_witness :
    cmOneEntry.RenewCertificate acmeAllFail "a.example" =
      (Except.error (DomainError.renewFailed "a.example" "boom"), cmOneEntry) ∧
    (cmOneEntry.RenewCertificate acmeAllFail "a.example").2.GetCertificate "a.example" =
      Except.ok certAlpha :=
  renewCertificate_failure_preserves_registry cmOneEntry acmeAllFail
    "a.example" certAlpha "boom" rfl rfl

/-! ## C10: lazy load commits before the renewal attempt -/

/-- C10. On a registry miss with a successful store load, the loaded
certificate is committed before the adapter renewal runs: when the
adapter then fails, the call errors yet GetCertificate afterwards
returns the loaded certificate. -/
theorem renewCertificate_lazy_load_commits
    (cm : CertificateManager) (acme : ACMEClient) (D : String)
    (loaded : Certificate) (e : String)
    (hmiss : mapLookup cm.certs D = none)
    (hload : acme.loadCertificate D = Except.ok loaded)
    (hfail : acme.renewCertificate loaded = Except.error e) :
    (cm.RenewCertificate acme D).1 = Except.error (DomainError.renewFailed D e) ∧
    (cm.RenewCertificate acme D).2.GetCertificate D = Except.ok loaded ∧
    (cm.RenewCertificate acme D).2 ≠ cm := by
  have hrun : cm.RenewCertificate acme D =
      (Except.error (DomainError.renewFailed D e),
       ⟨mapInsert cm.certs D loaded, cm.renewalDays, cm.domains⟩) := by
    simp only [CertificateManager.RenewCertificate, hmiss, hload,
      CertificateManager.renewWith, hfail]
  refine ⟨by rw [hrun], ?_, ?_⟩
  · rw [hrun]
    simp only [CertificateManager.GetCertificate, mapLookup_mapInsert_self]
  · rw [hrun]
    intro hcontra
    have hc : mapInsert cm.certs D loaded = cm.certs :=
      congrArg CertificateManager.certs hcontra
    have hsome : mapLookup cm.certs D = some loaded := by
      rw [← hc]
      exact mapLookup_mapInsert_self ..
    simp [hmiss] at hsome

def cmNoEntry : CertificateManager := ⟨[], 30, ["a.example"]⟩

def acmeLoadOnly : ACMEClient :=
  ⟨fun _ => Except.error "net down", fun _ => Except.error "boom",
   fun _ => Except.ok certAlpha⟩

/-- Witness for C10: empty registry, load succeeds, renewal fails. -/
theorem renewCertificate_lazy_load_commits_witness :
    (cmNoEntry.RenewCertificate acmeLoadOnly "a.example").1 =
      Except.error (DomainError.renewFailed "a.example" "boom") ∧
    (cmNoEntry.RenewCertificate acmeLoadOnly "a.example").2.GetCertificate "a.example" =
      Except.ok certAlpha ∧
    (cmNoEntry.RenewCertificate acmeLoadOnly "a.example").2 ≠ cmNoEntry :=
  renewCertificate_lazy_load_commits cmNoEntry acmeLoadOnly "a.example"
    certAlpha "boom" rfl rfl rfl

end CertManager

namespace CertManager

/-! ## C4: health status derivation rule -/

/-- C4. For every registry entry, CheckCertificateHealth reports it with
status computed as: expired if `now > expiresAt`, else needs_renewal if
`now > expiresAt - renewalThresholdDays`, else valid; in particular a
certificate both expired and past the renewal threshold reports
"expired", never "needs_renewal". -/
theorem checkCertificateHealth_status_rule
    (cm : CertificateManager) (now : Int) (D : String) (cert : Certificate)
    (hmem : (D, cert) ∈ cm.certs) :
    (D, healthOf D cert cm.renewalDays now) ∈ cm.CheckCertificateHealth now ∧
    (healthOf D cert cm.renewalDays now).status =
      (if cert.expiresAt < now then "expired"
       else if cert.expiresAt - cm.renewalDays * nsPerDay < now then "needs_renewal"
       else "valid") ∧
    (cert.IsExpired now = true → cert.NeedsRenewal cm.renewalDays now = true →
      (healthOf D cert cm.renewalDays now).status = "expired") := by
  refine ⟨?_, ?_, ?_⟩
  · have := List.mem_map_of_mem
      (fun p : String × Certificate => (p.1, healthOf p.1 p.2 cm.renewalDays now)) hmem
    simpa [CertificateManager.CheckCertificateHealth] using this
  · simp [healthOf, Certificate.IsExpired, Certificate.NeedsRenewal]
  · intro h1 _
    simp [healthOf, h1]

def certValid60 : Certificate := ⟨"v.example", 1, 2, 0, 5184000000000000⟩

def certSoon15 : Certificate := ⟨"s.example", 3, 4, 0, 1296000000000000⟩

def certDead5 : Certificate := ⟨"d.example", 5, 6, -864000000000000, -432000000000000⟩

def cmHealthTrio : CertificateManager :=
  ⟨[("v.example", certValid60), ("s.example", certSoon15), ("d.example", certDead5)],
   30, []⟩

/-- Witness for C4 at the certificate expired 5 days ago (which is also
past its renewal threshold): reported status is "expired". -/
theorem checkCertificateHealth_status_rule_witness :
    ("d.example", healthOf "d.example" certDead5 cmHealthTrio.renewalDays 0) ∈
      cmHealthTrio.CheckCertificateHealth 0 ∧
    (healthOf "d.example" certDead5 cmHealthTrio.renewalDays 0).status =
      (if certDead5.expiresAt < 0 then "expired"
       else if certDead5.expiresAt - cmHealthTrio.renewalDays * nsPerDay < 0 then
         "needs_renewal"
       else "valid") ∧
    (certDead5.IsExpired 0 = true → certDead5.NeedsRenewal cmHealthTrio.renewalDays 0 = true →
      (healthOf "d.example" certDead5 cmHealthTrio.renewalDays 0).status = "expired") :=
  checkCertificateHealth_status_rule cmHealthTrio 0 "d.example" certDead5 (by decide)

/-! ## C8: cleanup grace window -/

theorem cleanupKeeps_iff (now : Int) (c : Certificate) :
    cleanupKeeps now c = true ↔ ¬(30 * nsPerDay < now - c.expiresAt) := by
  simp only [cleanupKeeps, Certificate.IsExpired, nsPerDay, Bool.not_eq_true',
    Bool.and_eq_false_iff, decide_eq_false_iff_not, not_lt, decide_eq_true_eq]
  omega

/-- C8. Cleanup removes exactly the registry entries whose expiry lies
more than 30 days before `now`, and leaves the on-disk store artifacts
untouched (its body performs no store operation). -/
theorem cleanup_grace_window (s : CertSystem) (now : Int) :
    (s.Cleanup now).store = s.store ∧
    ∀ p : String × Certificate,
      p ∈ (s.Cleanup now).cm.certs ↔
        p ∈ s.cm.certs ∧ ¬(30 * nsPerDay < now - p.2.expiresAt) := by
  refine ⟨rfl, fun p => ?_⟩
  simp only [CertSystem.Cleanup, List.mem_filter, cleanupKeeps_iff]

def certOld40 : Certificate := ⟨"old.example", 7, 8, -4320000000000000, -3456000000000000⟩

def sysCleanup : CertSystem :=
  ⟨⟨[("old.example", certOld40), ("d.example", certDead5)], 30, []⟩,
   [("old.example", certOld40), ("d.example", certDead5)]⟩

/-- Witness for C8: at now = 0, the certificate expired 40 days ago is
removed, the one expired 5 days ago is retained, the store is unchanged. -/
theorem cleanup_grace_window_witness :
    (sysCleanup.Cleanup 0).cm.certs = [("d.example", certDead5)] ∧
    (sysCleanup.Cleanup 0).store = sysCleanup.store := by
  exact ⟨by decide, (cleanup_grace_window sysCleanup 0).1⟩

/-! ## C6: DaysUntilExpiry truncates toward zero, not floor -/

def certNoon : Certificate := ⟨"x.example", 9, 10, -43200000000000, 0⟩

/-- C6 counterexample: a certificate expired 12 hours ago. The claim
says DaysUntilExpiry is the floor of the remaining duration in days
(here -1) and is negative once expired; the code truncates toward zero
and returns 0. -/
theorem daysUntilExpiry_not_floor_cex :
    certNoon.IsExpired 43200000000000 = true ∧
    certNoon.DaysUntilExpiry 43200000000000 = 0 ∧
    Int.fdiv (certNoon.expiresAt - 43200000000000) nsPerDay = -1 ∧
    ¬(certNoon.DaysUntilExpiry 43200000000000 < 0) := by
  refine ⟨by decide, by decide, by decide, by decide⟩

/-- C6 (amended). DaysUntilExpiry divides the remaining duration by 24h
rounding toward zero: it agrees with the floor while the certificate is
not yet expired, is nonpositive once expired, and is strictly negative
iff the certificate has been expired for at least one full day. -/
theorem daysUntilExpiry_truncates_toward_zero (cert : Certificate) (now : Int) :
    (now ≤ cert.expiresAt →
      cert.DaysUntilExpiry now = Int.fdiv (cert.expiresAt - now) nsPerDay) ∧
    (cert.expiresAt < now → cert.DaysUntilExpiry now ≤ 0) ∧
    (cert.DaysUntilExpiry now < 0 ↔ cert.expiresAt - now ≤ -nsPerDay) := by
  have hn : (0 : Int) < nsPerDay := by norm_num [nsPerDay]
  simp only [Certificate.DaysUntilExpiry]
  refine ⟨?_, ?_, ?_⟩
  · intro h
    have ha : 0 ≤ cert.expiresAt - now := by omega
    rw [Int.tdiv_eq_ediv ha hn.le, ← Int.fdiv_eq_ediv _ hn.le]
  · intro h
    have e1 : (-(cert.expiresAt - now)).tdiv nsPerDay =
        -((cert.expiresAt - now).tdiv nsPerDay) := Int.neg_tdiv ..
    have e2 : 0 ≤ (-(cert.expiresAt - now)).tdiv nsPerDay :=
      Int.tdiv_nonneg (by omega) hn.le
    omega
  · rcases le_or_lt 0 (cert.expiresAt - now) with ha | ha
    · have h2 : 0 ≤ (cert.expiresAt - now).tdiv nsPerDay := Int.tdiv_nonneg ha hn.le
      constructor
      · intro h; omega
      · intro h; exfalso; omega
    · have e1 : (-(cert.expiresAt - now)).tdiv nsPerDay =
          -((cert.expiresAt - now).tdiv nsPerDay) := Int.neg_tdiv ..
      have e2 : (-(cert.expiresAt - now)).tdiv nsPerDay =
          (-(cert.expiresAt - now)) / nsPerDay :=
        Int.tdiv_eq_ediv (by omega) hn.le
      have e3 : (1 ≤ (-(cert.expiresAt - now)) / nsPerDay) ↔
          (1 * nsPerDay ≤ -(cert.expiresAt - now)) :=
        Int.le_ediv_iff_mul_le hn
      have e4 : 0 ≤ (-(cert.expiresAt - now)) / nsPerDay :=
        Int.ediv_nonneg (by omega) hn.le
      omega

end CertManager

namespace CertManager

/-! ## C7: a cancelled run is counted as a failed run -/

def statsZero : SchedulerStats := ⟨0, 0, 0, 0⟩

def cmEmpty : CertificateManager := ⟨[], 30, []⟩

/-- C7 counterexample: a scheduled check that observes cancellation at
its first ctx poll returns the distinct cancellation error, yet
performRenewalCheck increments FailedRuns exactly as for any other
failure — contradicting the claim that FailedRuns is not incremented. -/
theorem cancelled_run_counts_as_failed_cex :
    (performRenewalCheck statsZero cmEmpty acmeAllFail 0 (fun _ => true)).2.2 =
      Except.error BatchError.cancelled ∧
    (performRenewalCheck statsZero cmEmpty acmeAllFail 0 (fun _ => true)).1.failedRuns =
      statsZero.failedRuns + 1 :=
  ⟨rfl, rfl⟩

/-- C7 (amended). A run that terminates because cancellation was
observed is recorded distinctly (the cancellation error is a different
value from every aggregate of renewal failures), but the scheduler
FailedRuns counter IS incremented: performRenewalCheck counts every
non-nil error, cancellation included, as a failed run. -/
theorem cancelled_run_distinct_error_counts_failed
    (stats : SchedulerStats) (cm : CertificateManager) (acme : ACMEClient)
    (now : Int) (cancelled : Nat → Bool)
    (h : (performRenewalWithContext cm acme now cancelled).1 =
      Except.error BatchError.cancelled) :
    (performRenewalCheck stats cm acme now cancelled).2.2 =
      Except.error BatchError.cancelled ∧
    (∀ l, (BatchError.cancelled : BatchError) ≠ BatchError.aggregate l) ∧
    (performRenewalCheck stats cm acme now cancelled).1.failedRuns = stats.failedRuns + 1 ∧
    (performRenewalCheck stats cm acme now cancelled).1.totalRuns = stats.totalRuns + 1 := by
  rcases hrun : performRenewalWithContext cm acme now cancelled with ⟨r, cm2, cnt⟩
  rw [hrun] at h
  simp only at h
  subst h
  refine ⟨?_, fun l => by simp, ?_, ?_⟩ <;> simp [performRenewalCheck, hrun]

/-- Witness for the amended C7 theorem at a concrete cancelled run. -/
theorem cancelled_run_distinct_error_counts_failed_witness :
    (performRenewalCheck statsZero cmEmpty acmeAllFail 0 (fun _ => true)).2.2 =
      Except.error BatchError.cancelled ∧
    (∀ l, (BatchError.cancelled : BatchError) ≠ BatchError.aggregate l) ∧
    (performRenewalCheck statsZero cmEmpty acmeAllFail 0 (fun _ => true)).1.failedRuns =
      statsZero.failedRuns + 1 ∧
    (performRenewalCheck statsZero cmEmpty acmeAllFail 0 (fun _ => true)).1.totalRuns =
      statsZero.totalRuns + 1 :=
  cancelled_run_distinct_error_counts_failed statsZero cmEmpty acmeAllFail 0
    (fun _ => true) rfl

/-! ## C3: healthy-certificate short circuit and idempotence -/

/-- C3. A registry entry that is neither expired nor due for renewal
makes RequestCertificate succeed with zero adapter invocations and an
unchanged manager; and for a fresh domain whose issuance succeeds with
a certificate still healthy at the time of the second call, the first
call invokes the adapter exactly once and the second is a no-op (one
invocation across both calls). -/
theorem requestCertificate_idempotent
    (cm : CertificateManager) (acme : ACMEClient) (now now2 : Int) (D : String) :
    (∀ cert, mapLookup cm.certs D = some cert →
      cert.IsExpired now = false → cert.NeedsRenewal cm.renewalDays now = false →
      cm.RequestCertificate acme now D = (Except.ok (), cm, 0)) ∧
    (∀ c, mapLookup cm.certs D = none →
      acme.requestCertificate D = Except.ok c →
      c.IsExpired now2 = false → c.NeedsRenewal cm.renewalDays now2 = false →
      (cm.RequestCertificate acme now D).1 = Except.ok () ∧
      (cm.RequestCertificate acme now D).2.2 = 1 ∧
      (cm.RequestCertificate acme now D).2.1.RequestCertificate acme now2 D =
        (Except.ok (), (cm.RequestCertificate acme now D).2.1, 0)) := by
  constructor
  · intro cert hlook hexp hnr
    simp [CertificateManager.RequestCertificate, hlook, hexp, hnr]
  · intro c hmiss hok hexp2 hnr2
    have hrun : cm.RequestCertificate acme now D =
        (Except.ok (), ⟨mapInsert cm.certs D c, cm.renewalDays, cm.domains⟩, 1) := by
      simp [CertificateManager.RequestCertificate, hmiss,
        CertificateManager.requestFromAcme, hok]
    rw [hrun]
    refine ⟨rfl, rfl, ?_⟩
    have hlook2 : mapLookup (mapInsert cm.certs D c) D = some c :=
      mapLookup_mapInsert_self ..
    simp [CertificateManager.RequestCertificate, hlook2, hexp2, hnr2]

def acmeIssue : ACMEClient :=
  ⟨fun d => Except.ok ⟨d, 11, 12, 0, 5184000000000000⟩, fun _ => Except.error "no",
   fun _ => Except.error "no"⟩

/-- Witness for C3: fresh domain, successful issuance of a certificate
expiring in 60 days, threshold 30 days, both calls at time 0: the first
call makes one adapter invocation, the second short-circuits. -/
theorem requestCertificate_idempotent_witness :
    (cmNoEntry.RequestCertificate acmeIssue 0 "a.example").1 = Except.ok () ∧
    (cmNoEntry.RequestCertificate acmeIssue 0 "a.example").2.2 = 1 ∧
    (cmNoEntry.RequestCertificate acmeIssue 0 "a.example").2.1.RequestCertificate
        acmeIssue 0 "a.example" =
      (Except.ok (), (cmNoEntry.RequestCertificate acmeIssue 0 "a.example").2.1, 0) :=
  (requestCertificate_idempotent cmNoEntry acmeIssue 0 0 "a.example").2
    ⟨"a.example", 11, 12, 0, 5184000000000000⟩ rfl rfl (by decide) (by decide)

end CertManager

namespace CertManager

/-! ## C5: ProcessAllDomains aggregates errors, aborts on cancellation -/

theorem processDomainsAux_no_cancel (acme : ACMEClient) (now : Int)
    (ds : List String) (cancelled : Nat → Bool) (h : ∀ i, cancelled i = false)
    (cm : CertificateManager) (errs : List DomainError) (att : List String) :
    processDomainsAux acme now ds cancelled cm errs att =
      (if (errs ++ requestErrors acme now cm ds).isEmpty then Except.ok ()
       else Except.error (BatchError.aggregate (errs ++ requestErrors acme now cm ds)),
       requestAll acme now cm ds, att ++ ds) := by
  induction ds generalizing cancelled cm errs att with
  | nil => simp [processDomainsAux, requestErrors, requestAll]
  | cons d rest ih =>
    have h0 : cancelled 0 = false := h 0
    rcases hreq : cm.RequestCertificate acme now d with ⟨r, cm2, n⟩
    cases r with
    | ok u =>
      simp only [processDomainsAux, h0, Bool.false_eq_true, if_false, hreq]
      rw [ih (fun n => cancelled (n + 1)) (fun i => h (i + 1)) cm2 errs (att ++ [d])]
      simp [requestErrors, requestAll, hreq]
    | error e =>
      simp only [processDomainsAux, h0, Bool.false_eq_true, if_false, hreq]
      rw [ih (fun n => cancelled (n + 1)) (fun i => h (i + 1)) cm2 (errs ++ [e]) (att ++ [d])]
      simp [requestErrors, requestAll, hreq]

theorem processDomainsAux_cancel_at (acme : ACMEClient) (now : Int)
    (ds : List String) (cancelled : Nat → Bool) (k : Nat)
    (hk : k < ds.length) (hbefore : ∀ i, i < k → cancelled i = false)
    (hat : cancelled k = true)
    (cm : CertificateManager) (errs : List DomainError) (att : List String) :
    processDomainsAux acme now ds cancelled cm errs att =
      (Except.error BatchError.cancelled, requestAll acme now cm (ds.take k),
       att ++ ds.take k) := by
  induction ds generalizing cancelled k cm errs att with
  | nil => simp at hk
  | cons d rest ih =>
    cases k with
    | zero =>
      simp [processDomainsAux, hat, requestAll]
    | succ k2 =>
      have h0 : cancelled 0 = false := hbefore 0 (Nat.succ_pos _)
      rcases hreq : cm.RequestCertificate acme now d with ⟨r, cm2, n⟩
      have hk2 : k2 < rest.length := by simpa using hk
      have hb2 : ∀ i, i < k2 → cancelled (i + 1) = false :=
        fun i hi => hbefore (i + 1) (by omega)
      cases r with
      | ok u =>
        simp only [processDomainsAux, h0, Bool.false_eq_true, if_false, hreq]
        rw [ih (fun n => cancelled (n + 1)) k2 hk2 hb2 hat cm2 errs (att ++ [d])]
        simp [requestAll, hreq]
      | error e =>
        simp only [processDomainsAux, h0, Bool.false_eq_true, if_false, hreq]
        rw [ih (fun n => cancelled (n + 1)) k2 hk2 hb2 hat cm2 (errs ++ [e]) (att ++ [d])]
        simp [requestAll, hreq]

/-- C5. Without cancellation, ProcessAllDomains runs RequestCertificate
on every configured domain in order: the final state is the fold of the
per-domain requests over the whole list (a failing domain never stops
the others), and the result is ok when no per-domain error occurred and
the aggregate of exactly the collected per-domain errors otherwise.
When the k-th ctx poll observes cancellation mid-iteration, it aborts
with the cancellation error after processing only the first k domains. -/
theorem processAllDomains_aggregate_and_cancellation
    (cm : CertificateManager) (acme : ACMEClient) (now : Int) (cancelled : Nat → Bool) :
    ((∀ i, cancelled i = false) →
      cm.ProcessAllDomains acme now cancelled =
        (if (requestErrors acme now cm cm.domains).isEmpty then Except.ok ()
         else Except.error (BatchError.aggregate (requestErrors acme now cm cm.domains)),
         requestAll acme now cm cm.domains, cm.domains)) ∧
    (∀ k, k < cm.domains.length → (∀ i, i < k → cancelled i = false) →
      cancelled k = true →
      cm.ProcessAllDomains acme now cancelled =
        (Except.error BatchError.cancelled,
         requestAll acme now cm (cm.domains.take k), cm.domains.take k)) := by
  constructor
  · intro h
    unfold CertificateManager.ProcessAllDomains
    rw [processDomainsAux_no_cancel acme now cm.domains cancelled h cm [] []]
    simp
  · intro k hk hb hat
    unfold CertificateManager.ProcessAllDomains
    rw [processDomainsAux_cancel_at acme now cm.domains cancelled k hk hb hat cm [] []]
    simp

def acmeSecondFails : ACMEClient :=
  ⟨fun d => if d = "two.example" then Except.error "rate limited"
            else Except.ok ⟨d, 13, 14, 0, 5184000000000000⟩,
   fun _ => Except.error "no", fun _ => Except.error "no"⟩

def cmThreeDomains : CertificateManager :=
  ⟨[], 30, ["one.example", "two.example", "three.example"]⟩

/-- Witness for C5: three fresh domains where the second request fails:
the aggregate error names domain two, and domains one and three end up
in the registry while domain two does not. -/
theorem processAllDomains_aggregate_and_cancellation_witness :
    cmThreeDomains.ProcessAllDomains acmeSecondFails 0 (fun _ => false) =
      (Except.error (BatchError.aggregate
         [DomainError.requestFailed "two.example" "rate limited"]),
       requestAll acmeSecondFails 0 cmThreeDomains cmThreeDomains.domains,
       cmThreeDomains.domains) ∧
    mapLookup (cmThreeDomains.ProcessAllDomains acmeSecondFails 0 (fun _ => false)).2.1.certs
        "one.example" = some ⟨"one.example", 13, 14, 0, 5184000000000000⟩ ∧
    mapLookup (cmThreeDomains.ProcessAllDomains acmeSecondFails 0 (fun _ => false)).2.1.certs
        "two.example" = none ∧
    mapLookup (cmThreeDomains.ProcessAllDomains acmeSecondFails 0 (fun _ => false)).2.1.certs
        "three.example" = some ⟨"three.example", 13, 14, 0, 5184000000000000⟩ := by
  have h := (processAllDomains_aggregate_and_cancellation cmThreeDomains acmeSecondFails 0
    (fun _ => false)).1 (fun i => rfl)
  refine ⟨?_, ?_, ?_, ?_⟩ <;> rw [h] <;> decide

end CertManager

namespace CertManager

/-! ## C9: GetNextTask dequeues a ready task of maximal priority -/

theorem findBest_cons (now : Int) (t : RenewalTask) (rest : List RenewalTask)
    (i : Nat) (best : Option (RenewalTask × Nat)) :
    findBest now (t :: rest) i best =
      findBest now rest (i + 1)
        (if taskReady now t &&
            (match best with
             | none => true
             | some b => decide (b.1.priority < t.priority)) then
          some (t, i)
        else best) := rfl

theorem findBest_none (now : Int) (l : List RenewalTask) :
    ∀ (i : Nat) (best : Option (RenewalTask × Nat)),
      findBest now l i best = none →
      best = none ∧ ∀ u ∈ l, taskReady now u = false := by
  induction l with
  | nil =>
    intro i best h
    exact ⟨h, by simp⟩
  | cons t rest ih =>
    intro i best h
    cases best with
    | none =>
      rw [findBest_cons] at h
      cases hrt : taskReady now t with
      | true =>
        simp only [hrt, Bool.true_and, if_true] at h
        have hc := (ih _ _ h).1
        exact absurd hc (by simp)
      | false =>
        simp only [hrt, Bool.false_and, if_false] at h
        obtain ⟨-, h2⟩ := ih _ _ h
        refine ⟨rfl, fun u hu => ?_⟩
        rcases List.mem_cons.mp hu with rfl | hu2
        · exact hrt
        · exact h2 u hu2
    | some b0 =>
      rw [findBest_cons] at h
      cases hkeep : (taskReady now t && decide (b0.1.priority < t.priority)) with
      | true =>
        simp only [hkeep, if_true] at h
        have hc := (ih _ _ h).1
        exact absurd hc (by simp)
      | false =>
        simp only [hkeep, if_false] at h
        have hc := (ih _ _ h).1
        exact absurd hc (by simp)

theorem findBest_some (now : Int) (l : List RenewalTask) :
    ∀ (i : Nat) (best : Option (RenewalTask × Nat)) (r : RenewalTask × Nat),
      findBest now l i best = some r →
      (∀ b, best = some b → taskReady now b.1 = true) →
      taskReady now r.1 = true ∧
      (∀ u ∈ l, taskReady now u = true → u.priority ≤ r.1.priority) ∧
      (∀ b, best = some b → b.1.priority ≤ r.1.priority) ∧
      (best = some r ∨ ∃ k, l.get? k = some r.1 ∧ r.2 = i + k) := by
  induction l with
  | nil =>
    intro i best r hfb hready
    refine ⟨hready r hfb, by simp, fun b hb => ?_, Or.inl hfb⟩
    rw [hb] at hfb
    injection hfb with hbr
    rw [hbr]
  | cons t rest ih =>
    intro i best r hfb hready
    cases best with
    | none =>
      rw [findBest_cons] at hfb
      cases hrt : taskReady now t with
      | true =>
        simp only [hrt, Bool.true_and, if_true] at hfb
        obtain ⟨h1, h2, h3, h4⟩ := ih (i + 1) (some (t, i)) r hfb
          (fun b hb => by injection hb with hb1; rw [← hb1]; exact hrt)
        refine ⟨h1, ?_, ?_, ?_⟩
        · intro u hu hru
          rcases List.mem_cons.mp hu with rfl | hu2
          · exact h3 (u, i) rfl
          · exact h2 u hu2 hru
        · intro b hb
          simp at hb
        · rcases h4 with h4l | ⟨k, hk1, hk2⟩
          · injection h4l with h4e
            subst h4e
            exact Or.inr ⟨0, rfl, by simp⟩
          · exact Or.inr ⟨k + 1, by simpa using hk1, by omega⟩
      | false =>
        simp only [hrt, Bool.false_and, if_false] at hfb
        obtain ⟨h1, h2, h3, h4⟩ := ih (i + 1) none r hfb (fun b hb => by simp at hb)
        refine ⟨h1, ?_, ?_, ?_⟩
        · intro u hu hru
          rcases List.mem_cons.mp hu with rfl | hu2
          · rw [hrt] at hru; exact absurd hru (by simp)
          · exact h2 u hu2 hru
        · intro b hb
          simp at hb
        · rcases h4 with h4l | ⟨k, hk1, hk2⟩
          · exact absurd h4l (by simp)
          · exact Or.inr ⟨k + 1, by simpa using hk1, by omega⟩
    | some b0 =>
      rw [findBest_cons] at hfb
      cases hkeep : (taskReady now t && decide (b0.1.priority < t.priority)) with
      | true =>
        simp only [hkeep, if_true] at hfb
        obtain ⟨hrt, hlt⟩ := Bool.and_eq_true_iff.mp hkeep
        have hlt2 : b0.1.priority < t.priority := of_decide_eq_true hlt
        obtain ⟨h1, h2, h3, h4⟩ := ih (i + 1) (some (t, i)) r hfb
          (fun b hb => by injection hb with hb1; rw [← hb1]; exact hrt)
        refine ⟨h1, ?_, ?_, ?_⟩
        · intro u hu hru
          rcases List.mem_cons.mp hu with rfl | hu2
          · exact h3 (u, i) rfl
          · exact h2 u hu2 hru
        · intro b hb
          injection hb with hb1
          rw [← hb1]
          exact le_of_lt (lt_of_lt_of_le hlt2 (h3 (t, i) rfl))
        · rcases h4 with h4l | ⟨k, hk1, hk2⟩
          · injection h4l with h4e
            subst h4e
            exact Or.inr ⟨0, rfl, by simp⟩
          · exact Or.inr ⟨k + 1, by simpa using hk1, by omega⟩
      | false =>
        simp only [hkeep, if_false] at hfb
        obtain ⟨h1, h2, h3, h4⟩ := ih (i + 1) (some b0) r hfb
          (fun b hb => by injection hb with hb1; rw [← hb1]; exact hready b0 rfl)
        refine ⟨h1, ?_, ?_, ?_⟩
        · intro u hu hru
          rcases List.mem_cons.mp hu with rfl | hu2
          · have hnot : decide (b0.1.priority < u.priority) = false := by
              cases hd : decide (b0.1.priority < u.priority) with
              | true => rw [hru, hd] at hkeep; exact absurd hkeep (by simp)
              | false => rfl
            have hle : u.priority ≤ b0.1.priority := by
              have := of_decide_eq_false hnot
              omega
            exact le_trans hle (h3 b0 rfl)
          · exact h2 u hu2 hru
        · intro b hb
          injection hb with hb1
          rw [← hb1]
          exact h3 b0 rfl
        · rcases h4 with h4l | ⟨k, hk1, hk2⟩
          · exact Or.inl h4l
          · exact Or.inr ⟨k + 1, by simpa using hk1, by omega⟩

/-- C9. GetNextTask returns a task only if its scheduledAt has passed;
among the eligible tasks it returns one of maximal priority, removing
exactly that occurrence from the queue; with no eligible task it
returns nothing and leaves the queue unchanged. -/
theorem getNextTask_selects_ready_highest (tasks : List RenewalTask) (now : Int) :
    ((GetNextTask tasks now).1 = none →
      (GetNextTask tasks now).2 = tasks ∧ ∀ u ∈ tasks, taskReady now u = false) ∧
    (∀ t, (GetNextTask tasks now).1 = some t →
      taskReady now t = true ∧
      (∀ u ∈ tasks, taskReady now u = true → u.priority ≤ t.priority) ∧
      ∃ i, tasks.get? i = some t ∧ (GetNextTask tasks now).2 = tasks.eraseIdx i) := by
  unfold GetNextTask
  cases hfb : findBest now tasks 0 none with
  | none =>
    obtain ⟨-, hall⟩ := findBest_none now tasks 0 none hfb
    exact ⟨fun _ => ⟨rfl, hall⟩, fun t ht => nomatch ht⟩
  | some r =>
    obtain ⟨rt, idx⟩ := r
    obtain ⟨h1, h2, h3, h4⟩ := findBest_some now tasks 0 none (rt, idx) hfb
      (fun b hb => by simp at hb)
    constructor
    · intro hc
      exact absurd hc (by simp)
    · intro t ht
      have hrt : rt = t := Option.some.inj ht
      subst hrt
      rcases h4 with h4l | ⟨k, hk1, hk2⟩
      · exact absurd h4l (by simp)
      · have hik : idx = k := by omega
        subst hik
        exact ⟨h1, h2, ⟨idx, hk1, rfl⟩⟩

def taskLow : RenewalTask := ⟨"one.example", "one.crt", "one.key", 1, 0⟩

def taskSleeping : RenewalTask := ⟨"two.example", "two.crt", "two.key", 9, 500⟩

def taskHigh : RenewalTask := ⟨"three.example", "three.crt", "three.key", 5, 10⟩

/-- Witness for C9: with one unready high-priority task and two ready
tasks, the ready task of greatest priority is returned and removed;
and on a queue with no ready task nothing is returned and the queue is
unchanged. -/
theorem getNextTask_selects_ready_highest_witness :
    (GetNextTask [taskLow, taskSleeping, taskHigh] 100).1 = some taskHigh ∧
    (GetNextTask [taskLow, taskSleeping, taskHigh] 100).2 = [taskLow, taskSleeping] ∧
    (GetNextTask [taskSleeping] 100).1 = none ∧
    (GetNextTask [taskSleeping] 100).2 = [taskSleeping] := by
  refine ⟨by decide, by decide, by decide, by decide⟩

end CertManager
